import Mathlib

/-!
Verification of the SecureTCPRelay TCP relay (src/main.go) against its
natural-language specification.

The Go source is shallowly embedded: byte streams become `List Nat`
(each element a byte value), Go strings become `List Char`, fallible
operations return `Except` or `Option`, and the per-connection control
flow of `main`/`handleConnection`/`handleHTTP`/`handleHTTPS` is embedded
as a function producing the list of observable events (IP check, initial
read, protocol classification, domain check, backend dial, backend
write, relay) of one accepted connection.

A Go slice expression `b[i:j]` panics when the bounds are out of range;
the embedding models this with an explicit `PErr.panic` error so that
"every slice is bounds-checked before use" is a provable statement:
the parser never returns `PErr.panic`.
-/

namespace SecureTCPRelay

/-- Errors of the embedded per-connection pipeline.  `panic` models a Go
slice-bounds panic (proved unreachable), `eof` a failed read
(`io.ReadFull` / `binary.Read` failure), and the remaining constructors
the explicit error returns of `readClientHello` in src/main.go. -/
inductive PErr where
  | panic
  | eof
  | recordLen0
  | notClientHello
  | noSNI
deriving DecidableEq

/-- Model of the Go slice expression `l[a:b]`: the value when
`0 ≤ a ≤ b ≤ len(l)`, and a runtime panic otherwise. -/
def goSlice (l : List Nat) (a b : Nat) : Except PErr (List Nat) :=
  if a ≤ b ∧ b ≤ l.length then .ok ((l.take b).drop a) else .error .panic

/-- Big-endian 16-bit value of the first two bytes of a list, as produced
by `binary.BigEndian.Uint16` on a 2-byte slice. -/
def be16 (l : List Nat) : Nat := 256 * l.getD 0 0 + l.getD 1 0

/-- Model of `readN` (src/main.go): read exactly `n` further bytes from
the connection via `io.ReadFull`; fails when the peer has fewer than `n`
bytes left to deliver.  Returns the bytes read and the rest of the
stream. -/
def readN (stream : List Nat) (n : Nat) : Except PErr (List Nat × List Nat) :=
  if n ≤ stream.length then .ok (stream.take n, stream.drop n) else .error .eof

/-- Model of the extensions-walk loop of `readClientHello`
(src/main.go lines 323-351): scan the buffered extensions block for the
first extension of type 0 (server_name) and extract the host name.
Every Go slice of the loop goes through `goSlice`, so an out-of-range
access would surface as `PErr.panic`.  Leaving the loop (`break` or the
loop condition failing) yields the `noSNI` error of the source. -/
def findSNIFuel : Nat → List Nat → Nat → Except PErr (List Char)
  | 0, _, _ => .error .noSNI
  | fuel + 1, extData, pos =>
    if pos + 4 ≤ extData.length then
      match goSlice extData pos (pos+2), goSlice extData (pos+2) (pos+4) with
      | .ok tb, .ok lb =>
        let etype := be16 tb
        let el := be16 lb
        if pos + 4 + el > extData.length then .error .noSNI
        else if etype = 0 then
          match goSlice extData (pos+4) (pos+4+el) with
          | .ok sniList =>
            if sniList.length < 2 then .error .noSNI
            else
              match goSlice sniList 0 2 with
              | .ok llb =>
                let listLen := be16 llb
                if listLen + 2 > sniList.length ∨ listLen = 0 then .error .noSNI
                else
                  match goSlice sniList 2 sniList.length with
                  | .ok item =>
                    if item.length < 3 ∨ item.getD 0 0 ≠ 0 then .error .noSNI
                    else
                      match goSlice item 1 3 with
                      | .ok nlb =>
                        let nameLen := be16 nlb
                        if nameLen + 3 > item.length then .error .noSNI
                        else
                          match goSlice item 3 (3 + nameLen) with
                          | .ok name => .ok (name.map fun b => Char.ofNat b)
                          | .error e => .error e
                      | .error e => .error e
                  | .error e => .error e
              | .error e => .error e
          | .error e => .error e
        else findSNIFuel fuel extData (pos + 4 + el)
      | .error e, _ => .error e
      | _, .error e => .error e
    else .error .noSNI

/-- Entry point of the walk at a given position.  The fuel
`extData.length + 1 - pos` over-approximates the remaining loop
iterations (each iteration advances `pos` by at least 4 and consumes
one unit), so the bounded recursion is exactly the source loop. -/
def findSNI (extData : List Nat) (pos : Nat) : Except PErr (List Char) :=
  findSNIFuel (extData.length + 1 - pos) extData pos

/-- A `bytes.Reader` over the handshake body: the underlying bytes and
the current read position.  `Seek` may move the position past the end;
subsequent reads then fail. -/
structure BufReader where
  data : List Nat
  pos : Nat
deriving DecidableEq

/-- A checked one-byte `binary.Read`: fails at end of data. -/
def readU8 (r : BufReader) : Except PErr (Nat × BufReader) :=
  if r.pos + 1 ≤ r.data.length then .ok (r.data.getD r.pos 0, ⟨r.data, r.pos + 1⟩)
  else .error .eof

/-- A one-byte `binary.Read` whose error the source ignores: at end of
data the target variable keeps its zero value and no byte is consumed. -/
def readU8Skip (r : BufReader) : Nat × BufReader :=
  if r.pos + 1 ≤ r.data.length then (r.data.getD r.pos 0, ⟨r.data, r.pos + 1⟩)
  else (0, r)

/-- A two-byte big-endian `binary.Read` whose error the source ignores:
on failure the target variable keeps its zero value (a partial read
still consumes the remaining byte, as `io.ReadFull` does). -/
def readU16Skip (r : BufReader) : Nat × BufReader :=
  if r.pos + 2 ≤ r.data.length then
    (256 * r.data.getD r.pos 0 + r.data.getD (r.pos+1) 0, ⟨r.data, r.pos + 2⟩)
  else if r.pos + 1 ≤ r.data.length then (0, ⟨r.data, r.data.length⟩)
  else (0, r)

/-- A checked two-byte big-endian `binary.Read`. -/
def readU16 (r : BufReader) : Except PErr (Nat × BufReader) :=
  if r.pos + 2 ≤ r.data.length then
    .ok (256 * r.data.getD r.pos 0 + r.data.getD (r.pos+1) 0, ⟨r.data, r.pos + 2⟩)
  else .error .eof

/-- Model of `Seek(n, io.SeekCurrent)` on a `bytes.Reader`: just moves the
position, possibly past the end. -/
def seekBy (r : BufReader) (n : Nat) : BufReader := ⟨r.data, r.pos + n⟩

/-- Model of `io.ReadFull(r, make([]byte, n))`: succeeds iff `n` bytes remain
(`n = 0` always succeeds). -/
def readFull (r : BufReader) (n : Nat) : Except PErr (List Nat × BufReader) :=
  if n ≤ r.data.length - r.pos then .ok ((r.data.drop r.pos).take n, ⟨r.data, r.pos + n⟩)
  else .error .eof

/-- The handshake-body part of `readClientHello` (src/main.go lines
279-353): check the handshake type, skip to the extensions block,
buffer it, and run the SNI walk.  `buf` is the full buffered record,
returned as the consumed-bytes output on success. -/
def parseHandshake (body : List Nat) (buf : List Nat) : Except PErr (List Char × List Nat) :=
  match readU8 ⟨body, 0⟩ with
  | .error e => .error e
  | .ok (htype, r0) =>
    if htype ≠ 1 then .error .notClientHello
    else
      let r1 := seekBy r0 3
      let r2 := seekBy r1 34
      let sid := readU8Skip r2
      let r3 := seekBy sid.2 sid.1
      let cs := readU16Skip r3
      let r4 := seekBy cs.2 cs.1
      let comp := readU8Skip r4
      let r5 := seekBy comp.2 comp.1
      match readU16 r5 with
      | .error e => .error e
      | .ok (extLen, r6) =>
        match readFull r6 extLen with
        | .error e => .error e
        | .ok (extData, _) =>
          match findSNI extData 0 with
          | .error e => .error e
          | .ok name => .ok (name, buf)

/-- Model of `readClientHello` (src/main.go lines 253-354).
`firstChunk` is the sniffer's already-read prefix, `stream` the bytes
the client has still to deliver.  Output on success: the extracted SNI
host name and the exact consumed byte sequence `buf`. -/
def readClientHello (firstChunk : List Nat) (stream : List Nat) :
    Except PErr (List Char × List Nat) :=
  let step1 : Except PErr (List Nat × List Nat) :=
    if firstChunk.length < 5 then
      match readN stream (5 - firstChunk.length) with
      | .error e => .error e
      | .ok (tmp, rest) => .ok (firstChunk ++ tmp, rest)
    else .ok (firstChunk, stream)
  match step1 with
  | .error e => .error e
  | .ok (buf1, stream1) =>
    match goSlice buf1 3 5 with
    | .error e => .error e
    | .ok rl =>
      let recordLen := be16 rl
      if recordLen = 0 then .error .recordLen0
      else
        let totalLen := 5 + recordLen
        let step2 : Except PErr (List Nat) :=
          if buf1.length < totalLen then
            match readN stream1 (totalLen - buf1.length) with
            | .error e => .error e
            | .ok (tmp, _) => .ok (buf1 ++ tmp)
          else .ok buf1
        match step2 with
        | .error e => .error e
        | .ok buf =>
          match goSlice buf 5 buf.length with
          | .error e => .error e
          | .ok body => parseHandshake body buf

/-!
Domain access control.  `matchDomain` (src/main.go lines 240-251)
translates a glob pattern into a regular expression string
(`.` becomes `\.`, `*` becomes `.*`, then the result is wrapped in
`^`…`$`) and calls Go's `regexp.MatchString`; a compilation error makes
the function return `false`.  The Go regexp engine is external library
code; it is embedded here as a Brzozowski-derivative matcher over a
faithful subset of its syntax: literals, `\c` escapes of punctuation,
`.`, postfix `*` `+` `?` (an immediately repeated repetition such as
`a**` is an error, as in RE2), counted repetitions `a{n}`, `a{n,}` and
`a{n,m}` with RE2's rules (a brace sequence that does not form a valid
count is a literal `{`; a valid count with no operand, a count above
1000 or with the bounds reversed is an error; a lone `}` is a literal),
groups `(`…`)`, alternation `|`, and character classes `[`…`]` with
ranges and `^` negation.  A bare `^` or `$` inside the translated body,
`\` followed by an alphanumeric (class shorthands) and the non-greedy
variants `*?` `+?` `??` `{n,m}?` are outside the modelled subset and
parse as errors.
Since the source always wraps the translated pattern in `^`…`$`, the
`MatchString` substring search is exactly a full-string match of the
body, which is how `matchDomain` below applies the matcher.  (For a
pattern with a top-level `|` RE2 would attach each anchor to its
outermost branch only; the model anchors the whole body.  No statement
below concerns such patterns.)
-/

/-- Abstract syntax of the modelled regular-expression subset. -/
inductive Rx where
  | emp
  | eps
  | lit (c : Char)
  | dot
  | cls (neg : Bool) (ranges : List (Char × Char))
  | alt (a b : Rx)
  | cat (a b : Rx)
  | star (a : Rx)
deriving DecidableEq

/-- Does the regular expression accept the empty string? -/
def nullable : Rx → Bool
  | .emp => false
  | .eps => true
  | .lit _ => false
  | .dot => false
  | .cls _ _ => false
  | .alt a b => nullable a || nullable b
  | .cat a b => nullable a && nullable b
  | .star _ => true

/-- Character-class membership. -/
def inCls (neg : Bool) (ranges : List (Char × Char)) (c : Char) : Bool :=
  let mem := ranges.any fun p => decide (p.1 ≤ c ∧ c ≤ p.2)
  if neg then !mem else mem

/-- Smart concatenation used by the derivative (simplifies an `emp` or
`eps` left factor). -/
def scat : Rx → Rx → Rx
  | .emp, _ => .emp
  | .eps, r => r
  | a, b => .cat a b

/-- Smart alternation used by the derivative (drops `emp` branches). -/
def salt : Rx → Rx → Rx
  | .emp, r => r
  | a, .emp => a
  | a, b => .alt a b

/-- Brzozowski derivative of a regular expression by one character. -/
def deriv : Rx → Char → Rx
  | .emp, _ => .emp
  | .eps, _ => .emp
  | .lit c, x => if x = c then .eps else .emp
  | .dot, _ => .eps
  | .cls n rs, x => if inCls n rs x then .eps else .emp
  | .alt a b, x => salt (deriv a x) (deriv b x)
  | .cat a b, x => if nullable a then salt (scat (deriv a x) b) (deriv b x) else scat (deriv a x) b
  | .star a, x => scat (deriv a x) (.star a)

/-- Full-string regular-expression match by repeated derivation. -/
def rxMatch (r : Rx) (s : List Char) : Bool := nullable (s.foldl deriv r)

/-- Read a maximal run of decimal digits, folding them onto an
accumulator, as RE2's repeat parser does. -/
def parseDigitsAux (acc : Nat) : List Char → Nat × List Char
  | [] => (acc, [])
  | c :: rest =>
    if c.isDigit then parseDigitsAux (10 * acc + (c.toNat - 48)) rest
    else (acc, c :: rest)

/-- Try to read the body of a counted repetition after its opening
brace: digits, optionally a comma and an optional upper bound, then
the closing brace.  `some (lo, hi, rest)` is a well-formed count
(`hi = none` is an unbounded `n,`); `none` means the brace does not
start a repetition and stays a literal, as in RE2. -/
def parseRepeatSpec (cs : List Char) : Option (Nat × Option Nat × List Char) :=
  match cs with
  | [] => none
  | c :: _ =>
    if c.isDigit then
      match parseDigitsAux 0 cs with
      | (lo, rest) =>
        match rest with
        | '}' :: rest2 => some (lo, some lo, rest2)
        | ',' :: rest2 =>
          match rest2 with
          | [] => none
          | '}' :: rest3 => some (lo, none, rest3)
          | c2 :: _ =>
            if c2.isDigit then
              match parseDigitsAux 0 rest2 with
              | (hi, rest3) =>
                match rest3 with
                | '}' :: rest4 => some (lo, some hi, rest4)
                | _ => none
            else none
        | _ => none
    else none

/-- `n`-fold concatenation of a regular expression. -/
def repeatCat (r : Rx) : Nat → Rx
  | 0 => .eps
  | n + 1 => .cat r (repeatCat r n)

/-- Desugar a counted repetition: `lo` mandatory copies followed by a
star (unbounded) or by `hi - lo` optional copies. -/
def buildRepeat (r : Rx) (lo : Nat) (hi : Option Nat) : Rx :=
  match hi with
  | none => .cat (repeatCat r lo) (.star r)
  | some m => .cat (repeatCat r lo) (repeatCat (.alt .eps r) (m - lo))

/-- Is the next character a repetition operator?  RE2 rejects a
repetition applied directly to a repetition (`a**`, `a{2}{3}`); a
brace counts only when it opens a well-formed repetition count. -/
def isRepeatHead : List Char → Bool
  | c :: rest =>
    c == '*' || c == '+' || c == '?' || (c == '\x7b' && (parseRepeatSpec rest).isSome)
  | [] => false

/-- Apply at most one postfix repetition operator to a parsed atom.
A well-formed brace count becomes a counted repetition (an out-of-range
or reversed count is a compile error, as in RE2); a malformed one is
left in place for the atom parser to read as a literal brace. -/
def parsePostfixOps (r : Rx) (cs : List Char) : Option (Rx × List Char) :=
  match cs with
  | [] => some (r, cs)
  | c :: rest =>
    if c = '*' then if isRepeatHead rest then none else some (.star r, rest)
    else if c = '+' then if isRepeatHead rest then none else some (.cat r (.star r), rest)
    else if c = '?' then if isRepeatHead rest then none else some (.alt .eps r, rest)
    else if c = '\x7b' then
      match parseRepeatSpec rest with
      | none => some (r, cs)
      | some (lo, hi, rest2) =>
        if 1000 < lo then none
        else
          match hi with
          | some m =>
            if 1000 < m ∨ m < lo then none
            else if isRepeatHead rest2 then none
            else some (buildRepeat r lo (some m), rest2)
          | none =>
            if isRepeatHead rest2 then none
            else some (buildRepeat r lo none, rest2)
    else some (r, cs)

/-- Parse the items of a character class up to the closing `]`;
an unterminated class is a syntax error. -/
def parseClsItems : List Char → Option (List (Char × Char) × List Char)
  | [] => none
  | ']' :: rest => some ([], rest)
  | a :: '-' :: b :: rest =>
    if b = ']' then
      match parseClsItems ('-' :: b :: rest) with
      | some (items, rest2) => some ((a, a) :: items, rest2)
      | none => none
    else
      match parseClsItems rest with
      | some (items, rest2) => some ((a, b) :: items, rest2)
      | none => none
  | a :: rest =>
    match parseClsItems rest with
    | some (items, rest2) => some ((a, a) :: items, rest2)
    | none => none

mutual

/-- Parse an alternation (`|`-separated sequence of concatenations). -/
def parseAlt : Nat → List Char → Option (Rx × List Char)
  | 0, _ => none
  | fuel + 1, cs =>
    match parseSeq fuel cs with
    | none => none
    | some (r, rest) =>
      match rest with
      | '|' :: rest2 =>
        match parseAlt fuel rest2 with
        | some (r2, rest3) => some (.alt r r2, rest3)
        | none => none
      | _ => some (r, rest)

/-- Parse a concatenation of postfixed atoms, stopping at `)` or `|`
or the end of the input. -/
def parseSeq : Nat → List Char → Option (Rx × List Char)
  | 0, _ => none
  | fuel + 1, cs =>
    match cs with
    | [] => some (.eps, [])
    | c :: _ =>
      if c = ')' ∨ c = '|' then some (.eps, cs)
      else
        match parseAtom fuel cs with
        | none => none
        | some (r, rest) =>
          match parsePostfixOps r rest with
          | none => none
          | some (r2, rest2) =>
            match parseSeq fuel rest2 with
            | none => none
            | some (rs, rest3) => some (.cat r2 rs, rest3)

/-- Parse one atom: an escaped or literal character, `.`, a group or a
character class.  A dangling repetition operator — including a
well-formed brace count with no operand — an unmatched parenthesis or
bracket, an escaped alphanumeric, or an embedded anchor is a syntax
error (the last two mark the edge of the modelled subset); a brace not
opening a well-formed count is a literal, as in RE2. -/
def parseAtom : Nat → List Char → Option (Rx × List Char)
  | 0, _ => none
  | fuel + 1, cs =>
    match cs with
    | [] => none
    | c :: rest =>
      if c = '\\' then
        match rest with
        | [] => none
        | c2 :: rest2 => if c2.isAlphanum then none else some (.lit c2, rest2)
      else if c = '.' then some (.dot, rest)
      else if c = '(' then
        match parseAlt fuel rest with
        | none => none
        | some (r, rest2) =>
          match rest2 with
          | [] => none
          | c3 :: rest3 => if c3 = ')' then some (r, rest3) else none
      else if c = '[' then
        match rest with
        | [] => none
        | c2 :: rest2 =>
          if c2 = '^' then
            match parseClsItems rest2 with
            | some (items, rest3) => some (.cls true items, rest3)
            | none => none
          else
            match parseClsItems rest with
            | some (items, rest3) => some (.cls false items, rest3)
            | none => none
      else if c = '\x7b' then
        match parseRepeatSpec rest with
        | some _ => none
        | none => some (.lit c, rest)
      else if c = '*' ∨ c = '+' ∨ c = '?' ∨ c = '^' ∨ c = '$' then none
      else some (.lit c, rest)

end

/-- Compile a regular-expression body (the part between the `^`…`$`
anchors the source always adds); `none` models a `regexp.MatchString`
compilation error. -/
def parseRegex (cs : List Char) : Option Rx :=
  match parseAlt (4 * cs.length + 4) cs with
  | some (r, []) => some r
  | _ => none

/-- The glob-to-regex text translation of `matchDomain`: the two
`strings.Replace` calls (`.` to `\.`, then `*` to `.*`).  The second
replacement never rewrites the output of the first, so the sequential
replacements equal this single character-wise expansion. -/
def translateChar (c : Char) : List Char :=
  if c = '.' then ['\\', '.'] else if c = '*' then ['.', '*'] else [c]

/-- Translation of a whole pattern. -/
def translateGlob (p : List Char) : List Char := p.flatMap translateChar

/-- Model of `matchDomain` (src/main.go lines 240-251): translate the
pattern, compile `"^" ++ translated ++ "$"`, and match the host; with
both anchors present `regexp.MatchString` is exactly a full-string
match of the translated body.  A compilation error yields `false`. -/
def matchDomain (host pattern : List Char) : Bool :=
  match parseRegex (translateGlob pattern) with
  | some r => rxMatch r host
  | none => false

/-- Model of `isAllowedDomain` (src/main.go lines 226-238): the literal
one-element `["*"]` policy allows everything; otherwise the host must
match some pattern. -/
def isAllowedDomain (host : List Char) (allowedDomains : List (List Char)) : Bool :=
  if allowedDomains.length = 1 ∧ allowedDomains.getD 0 [] = ['*'] then true
  else allowedDomains.any fun pattern => matchDomain host pattern

/-- Anchored full-string glob matching as the specification words it:
`*` matches any run of characters (including across label boundaries),
every other character — in particular `.` — only matches itself.
This definition follows the spec's words and is compared against the
source-derived `matchDomain`. -/
def globMatchFuel : Nat → List Char → List Char → Bool
  | 0, _, _ => false
  | fuel + 1, p, s =>
    match p, s with
    | [], [] => true
    | [], _ :: _ => false
    | c :: t, s =>
      if c = '*' then
        globMatchFuel fuel t s ||
          (match s with
           | [] => false
           | _ :: s' => globMatchFuel fuel (c :: t) s')
      else
        match s with
        | [] => false
        | x :: s' => c = x && globMatchFuel fuel t s'

/-- Anchored glob matching; every recursive step shortens the pattern
or the string, so `p.length + s.length + 1` units of fuel always
suffice and the bounded recursion computes the idealised glob. -/
def globMatch (p s : List Char) : Bool :=
  globMatchFuel (p.length + s.length + 1) p s

/-!
The source-IP gate.  `main` (src/main.go lines 62-83) parses each CIDR
once at startup into a `*net.IPNet` and, per accepted connection, scans
the list with `Contains`.  IP addresses are embedded as byte lists
(length 4 for IPv4, 16 for IPv6); `ipnetContains` follows Go's
`net.IPNet.Contains` / `networkNumberAndMask` byte for byte.
-/

/-- A parsed CIDR range: the (pre-masked) network address and the mask,
as produced by `net.ParseCIDR`. -/
structure IPNet where
  ip : List Nat
  mask : List Nat
deriving DecidableEq

/-- Go's `IP.To4`: a 4-byte address itself, the last 4 bytes of an
IPv4-mapped IPv6 address, and `nil` (here `none`) otherwise. -/
def to4 (ip : List Nat) : Option (List Nat) :=
  if ip.length = 4 then some ip
  else if ip.length = 16 ∧ ip.take 12 = [0,0,0,0,0,0,0,0,0,0,255,255] then some (ip.drop 12)
  else none

/-- Go's `networkNumberAndMask`: normalise the network address to
4-byte form when possible and cut the mask to the same width;
`none` models the `nil, nil` return for inconsistent widths. -/
def networkNumberAndMask (n : IPNet) : Option (List Nat × List Nat) :=
  match to4 n.ip with
  | some ip4 =>
    if n.mask.length = 4 then some (ip4, n.mask)
    else if n.mask.length = 16 then some (ip4, n.mask.drop 12)
    else none
  | none =>
    if n.ip.length = 16 ∧ n.mask.length = 16 then some (n.ip, n.mask)
    else none

/-- Go's `net.IPNet.Contains`: normalise the candidate address, require
equal widths, and compare all bytes under the mask. -/
def ipnetContains (n : IPNet) (ip : List Nat) : Bool :=
  match networkNumberAndMask n with
  | none => false
  | some (nn, m) =>
    let ip4 := (to4 ip).getD ip
    ip4.length = nn.length &&
      (List.range ip4.length).all fun i =>
        (ip4.getD i 0) &&& (m.getD i 0) = (nn.getD i 0) &&& (m.getD i 0)

/-- The allow-list scan of `main` (src/main.go lines 71-77): allowed
iff some configured range contains the address. -/
def ipAllowed (allowedNets : List IPNet) (ip : List Nat) : Bool :=
  allowedNets.any fun n => ipnetContains n ip

/-!
Backend selection and the HTTP host extraction.
-/

/-- The forward-address choice of `handleConnection` (src/main.go lines
110-131): for TLS traffic the second address when two or more are
configured, else the only one, else a per-connection error (`none`);
for plaintext traffic always the first configured address. -/
def selectTarget (tls : Bool) (destAddrs : List String) : Option String :=
  if tls then
    if 2 ≤ destAddrs.length then destAddrs.get? 1
    else if destAddrs.length = 1 then destAddrs.get? 0
    else none
  else
    if 0 < destAddrs.length then destAddrs.get? 0 else none

/-- Strip spaces from both ends of a header value. -/
def trimSpaces (l : List Char) : List Char :=
  ((l.dropWhile fun c => c == ' ').reverse.dropWhile fun c => c == ' ').reverse

/-- Go's `net.SplitHostPort`, host part only: `none` models an error
(in the source the host variable then becomes the empty string). -/
def splitHostPort (h : List Char) : Option (List Char) :=
  match h with
  | '[' :: rest =>
    let inside := rest.takeWhile fun c => c != ']'
    match rest.drop inside.length with
    | ']' :: ':' :: _ => some inside
    | _ => none
  | _ =>
    if h.count ':' = 1 then some (h.takeWhile fun c => c != ':') else none

/-- The port-stripping step of `handleHTTP` (src/main.go lines 142-145):
only applied when the host contains a colon; a `SplitHostPort` error
leaves the host empty. -/
def stripPort (h : List Char) : List Char :=
  if h.contains ':' then (splitHostPort h).getD [] else h

/-- Split a character stream into lines at CRLF boundaries. -/
def splitLines : List Char → List (List Char)
  | [] => [[]]
  | '\r' :: '\n' :: rest => [] :: splitLines rest
  | c :: rest =>
    match splitLines rest with
    | [] => [[c]]
    | l :: ls => (c :: l) :: ls

/-- The value of a `Host:` header line, if this is one. -/
def hostHeaderValue (l : List Char) : Option (List Char) :=
  if (l.take 5).map Char.toLower = ['h', 'o', 's', 't', ':'] then some (trimSpaces (l.drop 5))
  else none

/-- Modelled from the spec: the Host extraction of the standard-library
`http.ReadRequest` call in `handleHTTP` (src/main.go line 136), which is
external to this repository.  Per spec section 4.4 it parses a request
line and a CRLF-terminated header block over the sniffer's bytes
followed by the connection, extracts the Host header value wherever it
appears in the block, and treats a malformed or incomplete request as a
parse error (`none`); a complete request without a Host header leaves
the host empty. -/
def readRequestHost (bytes : List Nat) : Option (List Char) :=
  let lines := splitLines (bytes.map fun b => Char.ofNat b)
  match lines with
  | [] => none
  | reqLine :: rest =>
    if reqLine.count ' ' ≠ 2 ∨ reqLine.isEmpty then none
    else
      let headerLines := rest.takeWhile fun l => !l.isEmpty
      if headerLines.length = rest.length then none
      else
        match headerLines.filterMap hostHeaderValue with
        | v :: _ => some v
        | [] => some []

/-!
The per-connection pipeline as an event trace.  `connectionTrace`
follows the accept-loop body of `main` after a connection is accepted
(the IP gate) and then `handleConnection` / `handleHTTP` /
`handleHTTPS`.  Observable actions become events in source order; a
`return` in the source simply ends the trace.  Dialing and the write of
the buffered bytes are modelled as always succeeding — the events
record that the attempt happens, which is what the temporal claims are
about.
-/

/-- One observable action of a connection's lifetime. -/
inductive Event where
  | ipCheck (ok : Bool)
  | readFail
  | readInitialBytes (n : Nat)
  | classified (tls : Bool)
  | domainCheck (host : List Char) (ok : Bool)
  | dial (addr : String)
  | writeBackend (bytes : List Nat)
  | relay
deriving DecidableEq

/-- The relay's configuration: backend addresses, allowed source
ranges, allowed domain patterns. -/
structure Config where
  destAddrs : List String
  allowedNets : List IPNet
  allowedDomains : List (List Char)

/-- Trace of `handleHTTPS` (src/main.go lines 172-205): buffer and
parse the ClientHello, check the SNI against the domain policy, and
only then dial and forward the buffered record. -/
def handleHTTPSTrace (forwardAddr : String) (allowedDomains : List (List Char))
    (initialData : List Nat) (stream : List Nat) : List Event :=
  match readClientHello initialData stream with
  | .error _ => []
  | .ok (sni, fullHello) =>
    if isAllowedDomain sni allowedDomains then
      [.domainCheck sni true, .dial forwardAddr, .writeBackend fullHello, .relay]
    else [.domainCheck sni false]

/-- Trace of `handleHTTP` (src/main.go lines 134-170): parse the HTTP
request from the sniffed bytes plus the connection, strip the port from
the Host, check the domain policy, and only then dial and forward the
initially read bytes. -/
def handleHTTPTrace (forwardAddr : String) (allowedDomains : List (List Char))
    (initialData : List Nat) (stream : List Nat) : List Event :=
  match readRequestHost (initialData ++ stream) with
  | none => []
  | some rawHost =>
    let host := stripPort rawHost
    if isAllowedDomain host allowedDomains then
      [.domainCheck host true, .dial forwardAddr, .writeBackend initialData, .relay]
    else [.domainCheck host false]

/-- Trace of `handleConnection` (src/main.go lines 95-132): one initial
read of up to 1024 bytes (an empty stream models a read error — a TCP
read returns at least one byte or an error), classification on the
first byte, address selection, and the protocol handler. -/
def handleConnectionTrace (destAddrs : List String)
    (allowedDomains : List (List Char)) (stream : List Nat) : List Event :=
  match stream with
  | [] => [.readFail]
  | _ =>
    let chunk := stream.take 1024
    let rest := stream.drop 1024
    let tls := chunk.getD 0 0 = 22
    .readInitialBytes chunk.length :: .classified tls ::
      match selectTarget tls destAddrs with
      | none => []
      | some forwardAddr =>
        if tls then handleHTTPSTrace forwardAddr allowedDomains chunk rest
        else handleHTTPTrace forwardAddr allowedDomains chunk rest

/-- Trace of one accepted connection, starting at the IP gate in the
accept loop of `main` (src/main.go lines 62-92): a denied source closes
the connection with nothing read and no handler spawned. -/
def connectionTrace (cfg : Config) (remoteIP : List Nat) (stream : List Nat) : List Event :=
  if ipAllowed cfg.allowedNets remoteIP then
    .ipCheck true :: handleConnectionTrace cfg.destAddrs cfg.allowedDomains stream
  else [.ipCheck false]

/-- The record length a buffered ClientHello declares in bytes 3 and 4
of its record header. -/
def recordLenOf (full : List Nat) : Nat := 256 * full.getD 3 0 + full.getD 4 0

/-- Proof-side normal form of `readClientHello` once the record is
fully buffered: used to show the split and unsplit deliveries agree. -/
def rchBuffered (full : List Nat) : Except PErr (List Char × List Nat) :=
  if recordLenOf full = 0 then .error .recordLen0
  else
    match goSlice full 5 full.length with
    | .error e => .error e
    | .ok body => parseHandshake body full

instance {ε α : Type} [DecidableEq ε] [DecidableEq α] : DecidableEq (Except ε α) := fun x y =>
  match x, y with
  | .error a, .error b =>
    if h : a = b then .isTrue (by rw [h]) else .isFalse (fun hc => h (Except.error.inj hc))
  | .ok a, .ok b =>
    if h : a = b then .isTrue (by rw [h]) else .isFalse (fun hc => h (Except.ok.inj hc))
  | .error _, .ok _ => .isFalse Except.noConfusion
  | .ok _, .error _ => .isFalse Except.noConfusion

/-- Does an event send anything towards a backend (a dial attempt or a
write of buffered bytes)? -/
def isDialOrWrite : Event → Bool
  | .dial _ => true
  | .writeBackend _ => true
  | _ => false

/-- A synthetic ClientHello record carrying one server_name extension
for `test.example.com` (record header, handshake header, legacy
version, 32-byte random, empty session id, one cipher suite, null
compression, extension block). -/
def helloSample : List Nat :=
  [22,3,1,0,72] ++
    ([1, 0,0,68] ++ [3,3] ++ List.replicate 32 0 ++ [0] ++ [0,2, 19,1] ++ [1,0] ++
      [0,25] ++ ([0,0, 0,21, 0,19, 0, 0,16] ++ ("test.example.com".toList.map Char.toNat)))

/-- A well-formed ClientHello record whose extension block is empty:
no SNI anywhere. -/
def helloNoSni : List Nat :=
  [22,3,1,0,47] ++
    ([1, 0,0,43] ++ [3,3] ++ List.replicate 32 0 ++ [0] ++ [0,2, 19,1] ++ [1,0] ++ [0,0])

/-- A plaintext HTTP request for `test.example.com`. -/
def httpSample : List Nat :=
  ("GET / HTTP/1.1\r\nHost: test.example.com\r\nAccept: x\r\n\r\n".toList.map Char.toNat)

/-- The CIDR range 192.168.1.0/24. -/
def cidr24 : IPNet := ⟨[192,168,1,0], [255,255,255,0]⟩

/-- The CIDR range ::/0 (every IPv6 address). -/
def v6all : IPNet := ⟨List.replicate 16 0, List.replicate 16 0⟩

/-- The CIDR range 0.0.0.0/0 (every IPv4 address). -/
def allowAll4 : IPNet := ⟨[0,0,0,0], [0,0,0,0]⟩

/-- Two backends, all IPv4 sources allowed, wildcard domain policy. -/
def cfgWildcard : Config := ⟨["b0", "b1"], [allowAll4], [['*']]⟩

/-- Two backends, sources restricted to 192.168.1.0/24, wildcard
domain policy. -/
def cfgDenied : Config := ⟨["b0", "b1"], [cidr24], [['*']]⟩

/-!
Helper lemmas.
-/

theorem goSlice_ok (l : List Nat) (a b : Nat) (h1 : a ≤ b) (h2 : b ≤ l.length) :
    goSlice l a b = .ok ((l.take b).drop a) := by
  simp [goSlice, h1, h2]

theorem length_slice (l : List Nat) (a b : Nat) (h2 : b ≤ l.length) :
    ((l.take b).drop a).length = b - a := by
  simp only [List.length_drop, List.length_take]
  omega

/-- Every run of the extensions walk ends in an extracted name or the
`noSNI` error: no slice of the walk is ever out of bounds. -/
theorem findSNIFuel_shape (fuel : Nat) (extData : List Nat) (pos : Nat) :
    (∃ s, findSNIFuel fuel extData pos = Except.ok s) ∨
      findSNIFuel fuel extData pos = Except.error PErr.noSNI := by
  induction fuel generalizing pos with
  | zero => exact Or.inr rfl
  | succ b ih =>
    by_cases h4 : pos + 4 ≤ extData.length
    · rw [findSNIFuel]
      simp only [if_pos h4,
        goSlice_ok extData pos (pos+2) (by omega) (by omega),
        goSlice_ok extData (pos+2) (pos+4) (by omega) (by omega)]
      split
      · exact Or.inr rfl
      next hov =>
        split
        next hty =>
          simp only [goSlice_ok extData (pos+4)
            (pos+4+be16 ((extData.take (pos+4)).drop (pos+2))) (by omega) (by omega)]
          set sniList :=
            (extData.take (pos+4+be16 ((extData.take (pos+4)).drop (pos+2)))).drop (pos+4) with hsl
          split
          · exact Or.inr rfl
          next hl2 =>
            simp only [goSlice_ok sniList 0 2 (by omega) (by omega)]
            split
            · exact Or.inr rfl
            next hll =>
              have hll1 : ¬ (be16 ((sniList.take 2).drop 0) + 2 > sniList.length) :=
                fun h => hll (Or.inl h)
              simp only [goSlice_ok sniList 2 sniList.length (by omega) (by omega)]
              set item := (sniList.take sniList.length).drop 2 with hit
              split
              · exact Or.inr rfl
              next h3 =>
                have h3a : ¬ item.length < 3 := fun h => h3 (Or.inl h)
                simp only [goSlice_ok item 1 3 (by omega) (by omega)]
                split
                · exact Or.inr rfl
                next hnl =>
                  simp only [goSlice_ok item 3 (3 + be16 ((item.take 3).drop 1))
                    (by omega) (by omega)]
                  exact Or.inl ⟨_, rfl⟩
        next hty =>
          exact ih (pos + 4 + be16 ((extData.take (pos+4)).drop (pos+2)))
    · right
      cases b <;> · rw [findSNIFuel]; simp [h4]

theorem findSNI_shape (extData : List Nat) (pos : Nat) :
    (∃ s, findSNI extData pos = Except.ok s) ∨
      findSNI extData pos = Except.error PErr.noSNI :=
  findSNIFuel_shape _ extData pos

theorem readU8_error_eq (r : BufReader) (e : PErr) (h : readU8 r = .error e) : e = .eof := by
  unfold readU8 at h
  split at h
  · cases h
  · cases h; rfl

theorem readU16_error_eq (r : BufReader) (e : PErr) (h : readU16 r = .error e) : e = .eof := by
  unfold readU16 at h
  split at h
  · cases h
  · cases h; rfl

theorem readFull_error_eq (r : BufReader) (n : Nat) (e : PErr)
    (h : readFull r n = .error e) : e = .eof := by
  unfold readFull at h
  split at h
  · cases h
  · cases h; rfl

theorem readN_error_eq (s : List Nat) (n : Nat) (e : PErr)
    (h : readN s n = .error e) : e = .eof := by
  unfold readN at h
  split at h
  · cases h
  · cases h; rfl

theorem readN_ok (s : List Nat) (n : Nat) (tmp rest : List Nat)
    (h : readN s n = .ok (tmp, rest)) :
    tmp = s.take n ∧ rest = s.drop n ∧ n ≤ s.length := by
  unfold readN at h
  split at h
  next hn =>
    injection h with h'
    injection h' with h1 h2
    exact ⟨h1.symm, h2.symm, hn⟩
  · cases h

theorem findSNI_error_eq (extData : List Nat) (pos : Nat) (e : PErr)
    (h : findSNI extData pos = .error e) : e = .noSNI := by
  rcases findSNI_shape extData pos with ⟨s, hs⟩ | hs
  · rw [hs] at h; cases h
  · rw [hs] at h; cases h; rfl

/-- The handshake parser never panics: it returns a name or one of the
checked error returns of the source. -/
theorem parseHandshake_shape (body buf : List Nat) :
    (∃ v, parseHandshake body buf = Except.ok v) ∨
    ∃ e, parseHandshake body buf = Except.error e ∧
      e ∈ [PErr.eof, PErr.notClientHello, PErr.noSNI] := by
  rw [parseHandshake]
  split
  next e h8 =>
    exact Or.inr ⟨e, rfl, by rw [readU8_error_eq _ _ h8]; simp⟩
  next htype r0 h8 =>
    split
    next => exact Or.inr ⟨_, rfl, by simp⟩
    next hty =>
      dsimp only
      split
      next e h16 =>
        exact Or.inr ⟨e, rfl, by rw [readU16_error_eq _ _ h16]; simp⟩
      next extLen r6 h16 =>
        split
        next e hf =>
          exact Or.inr ⟨e, rfl, by rw [readFull_error_eq _ _ _ hf]; simp⟩
        next extData r7 hf =>
          split
          next e hsni =>
            exact Or.inr ⟨e, rfl, by rw [findSNI_error_eq _ _ _ hsni]; simp⟩
          next name hsni =>
            exact Or.inl ⟨_, rfl⟩

/-- The record parser never panics: every Go slice it performs is in
bounds, and every failure is one of the checked error returns. -/
theorem readClientHello_shape (chunk stream : List Nat) :
    (∃ v, readClientHello chunk stream = Except.ok v) ∨
    ∃ e, readClientHello chunk stream = Except.error e ∧
      e ∈ [PErr.eof, PErr.recordLen0, PErr.notClientHello, PErr.noSNI] := by
  rw [readClientHello]
  split
  next e heq =>
    -- the header-buffering stage failed: only a read error is possible
    refine Or.inr ⟨e, rfl, ?_⟩
    split at heq
    · split at heq
      next e' hn =>
        cases heq
        rw [readN_error_eq _ _ _ hn]
        simp
      next => cases heq
    · cases heq
  next buf1 stream1 heq =>
    have h5 : 5 ≤ buf1.length := by
      split at heq
      next hlt =>
        split at heq
        next => cases heq
        next tmp rest hn =>
          cases heq
          obtain ⟨ht, -, hns⟩ := readN_ok _ _ _ _ hn
          subst ht
          simp only [List.length_append, List.length_take]
          omega
      next hge =>
        cases heq
        omega
    simp only [goSlice_ok buf1 3 5 (by omega) h5]
    split
    next => exact Or.inr ⟨_, rfl, by simp⟩
    next hrl =>
      split
      next e heq2 =>
        refine Or.inr ⟨e, rfl, ?_⟩
        split at heq2
        · split at heq2
          next e' hn =>
            cases heq2
            rw [readN_error_eq _ _ _ hn]
            simp
          next => cases heq2
        · cases heq2
      next buf heq2 =>
        have hb5 : 5 ≤ buf.length := by
          split at heq2
          · split at heq2
            next => cases heq2
            next tmp rest hn =>
              cases heq2
              simp only [List.length_append]
              omega
          · cases heq2
            exact h5
        simp only [goSlice_ok buf 5 buf.length hb5 (le_refl _)]
        rcases parseHandshake_shape ((buf.take buf.length).drop 5) buf with h | ⟨e, he, hmem⟩
        · exact Or.inl h
        · refine Or.inr ⟨e, he, ?_⟩
          simp only [List.mem_cons, List.not_mem_nil, or_false] at hmem ⊢
          tauto

theorem be16_slice_3_5 (l : List Nat) :
    be16 ((l.take 5).drop 3) = recordLenOf l := by
  simp [be16, recordLenOf, List.getD_eq_getElem?_getD, List.getElem?_drop, List.getElem?_take]

theorem rch_eval_whole (full extra : List Nat)
    (hwf : full.length = 5 + recordLenOf full) :
    readClientHello full extra = rchBuffered full := by
  have h5 : 5 ≤ full.length := by omega
  simp only [readClientHello, rchBuffered, if_neg (show ¬ full.length < 5 by omega)]
  simp only [goSlice_ok full 3 5 (by omega) h5, be16_slice_3_5 full]
  by_cases hrl : recordLenOf full = 0
  · simp [hrl]
  · simp only [if_neg hrl,
      if_neg (show ¬ full.length < 5 + recordLenOf full by omega)]

theorem rch_eval_split_high (full extra : List Nat) (k : Nat)
    (hwf : full.length = 5 + recordLenOf full) (hk : k < full.length) (hk5 : 5 ≤ k) :
    readClientHello (full.take k) (full.drop k ++ extra) = rchBuffered full := by
  have h5 : 5 ≤ full.length := by omega
  have hlen : (full.take k).length = k := by
    simp only [List.length_take]
    omega
  simp only [readClientHello, rchBuffered, hlen, if_neg (show ¬ k < 5 by omega)]
  simp only [goSlice_ok (full.take k) 3 5 (by omega) (by omega)]
  rw [List.take_take]
  simp only [show (5 : Nat) ⊓ k = 5 by omega, be16_slice_3_5 full]
  by_cases hrl : recordLenOf full = 0
  · simp [hrl]
  · simp only [if_neg hrl, hlen, if_pos (show k < 5 + recordLenOf full by omega)]
    simp only [readN,
      if_pos (show 5 + recordLenOf full - k ≤ (full.drop k ++ extra).length by
        simp only [List.length_append, List.length_drop]; omega)]
    rw [List.take_append_of_le_length (by simp only [List.length_drop]; omega)]
    rw [List.take_of_length_le
      (show (full.drop k).length ≤ 5 + recordLenOf full - k by
        simp only [List.length_drop]; omega)]
    rw [List.take_append_drop]

theorem rch_eval_split_low (full extra : List Nat) (k : Nat)
    (hwf : full.length = 5 + recordLenOf full) (hk5 : k < 5) :
    readClientHello (full.take k) (full.drop k ++ extra) = rchBuffered full := by
  have h5 : 5 ≤ full.length := by omega
  have hlen : (full.take k).length = k := by
    simp only [List.length_take]
    omega
  simp only [readClientHello, rchBuffered, hlen, if_pos hk5]
  simp only [readN,
    if_pos (show 5 - k ≤ (full.drop k ++ extra).length by
      simp only [List.length_append, List.length_drop]; omega)]
  rw [List.take_append_of_le_length (by simp only [List.length_drop]; omega)]
  rw [List.drop_append_of_le_length (by simp only [List.length_drop]; omega)]
  rw [List.drop_drop]
  rw [← List.take_add]
  have hkk : k + (5 - k) = 5 := by omega
  have hkk2 : k + (5 - k) = 5 := hkk
  rw [hkk]
  have hl5 : (full.take 5).length = 5 := by
    simp only [List.length_take]
    omega
  simp only [goSlice_ok (full.take 5) 3 5 (by omega) (by omega)]
  rw [List.take_take]
  simp only [show (5 : Nat) ⊓ 5 = 5 by omega, be16_slice_3_5 full]
  by_cases hrl : recordLenOf full = 0
  · simp [hrl]
  · simp only [if_neg hrl, hl5, if_pos (show 5 < 5 + recordLenOf full by omega)]
    simp only [readN,
      if_pos (show 5 + recordLenOf full - 5 ≤ (full.drop 5 ++ extra).length by
        simp only [List.length_append, List.length_drop]; omega)]
    rw [List.take_append_of_le_length (by simp only [List.length_drop]; omega)]
    rw [List.take_of_length_le
      (show (full.drop 5).length ≤ 5 + recordLenOf full - 5 by
        simp only [List.length_drop]; omega)]
    rw [List.take_append_drop]

/-- Delivering a well-formed ClientHello record split as an initial
chunk of `k` bytes plus the rest of the stream parses exactly like
delivering the whole record in the initial chunk; later stream bytes
(`extra`) are untouched either way. -/
theorem readClientHello_split_eq (full extra : List Nat) (k : Nat)
    (hwf : full.length = 5 + recordLenOf full) :
    readClientHello (full.take k) (full.drop k ++ extra) = readClientHello full extra := by
  rw [rch_eval_whole full extra hwf]
  by_cases hk : full.length ≤ k
  · rw [List.take_of_length_le hk, List.drop_eq_nil_of_le hk, List.nil_append]
    exact rch_eval_whole full extra hwf
  · push_neg at hk
    by_cases hk5 : k < 5
    · exact rch_eval_split_low full extra k hwf hk5
    · exact rch_eval_split_high full extra k hwf hk (by omega)

/-!
Relating the translated-regex matcher to the specification's glob
semantics, for patterns made of plain characters (no regex
metacharacter other than the glob `*` and the literal `.`).
-/

theorem handleHTTPSTrace_shape (addr : String) (doms : List (List Char))
    (chunk stream : List Nat) :
    handleHTTPSTrace addr doms chunk stream = [] ∨
    (∃ h, handleHTTPSTrace addr doms chunk stream = [Event.domainCheck h false]) ∨
    (∃ h b, handleHTTPSTrace addr doms chunk stream =
      [Event.domainCheck h true, Event.dial addr, Event.writeBackend b, Event.relay]) := by
  unfold handleHTTPSTrace
  split
  · exact Or.inl rfl
  next sni hello heq =>
    by_cases hall : isAllowedDomain sni doms = true
    · exact Or.inr (Or.inr ⟨sni, hello, by rw [if_pos hall]⟩)
    · exact Or.inr (Or.inl ⟨sni, by rw [if_neg hall]⟩)

theorem handleHTTPTrace_shape (addr : String) (doms : List (List Char))
    (chunk stream : List Nat) :
    handleHTTPTrace addr doms chunk stream = [] ∨
    (∃ h, handleHTTPTrace addr doms chunk stream = [Event.domainCheck h false]) ∨
    (∃ h b, handleHTTPTrace addr doms chunk stream =
      [Event.domainCheck h true, Event.dial addr, Event.writeBackend b, Event.relay]) := by
  unfold handleHTTPTrace
  split
  · exact Or.inl rfl
  next rawHost heq =>
    by_cases hall : isAllowedDomain (stripPort rawHost) doms = true
    · exact Or.inr (Or.inr ⟨stripPort rawHost, chunk, by rw [if_pos hall]⟩)
    · exact Or.inr (Or.inl ⟨stripPort rawHost, by rw [if_neg hall]⟩)

theorem handleConnectionTrace_shape (dest : List String) (doms : List (List Char))
    (stream : List Nat) :
    handleConnectionTrace dest doms stream = [Event.readFail] ∨
    ∃ n tls rest, handleConnectionTrace dest doms stream =
      Event.readInitialBytes n :: Event.classified tls :: rest ∧
      (rest = [] ∨ (∃ h, rest = [Event.domainCheck h false]) ∨
        (∃ h a b, rest =
          [Event.domainCheck h true, Event.dial a, Event.writeBackend b, Event.relay])) := by
  unfold handleConnectionTrace
  cases stream with
  | nil => exact Or.inl rfl
  | cons x xs =>
    right
    rcases hopt : selectTarget (decide (((x :: xs).take 1024).getD 0 0 = 22)) dest
      with _ | addr
    · exact ⟨_, _, [], by simp only [hopt]; rfl, Or.inl rfl⟩
    · by_cases htls : ((x :: xs).take 1024).getD 0 0 = 22
      · rcases handleHTTPSTrace_shape addr doms ((x :: xs).take 1024) ((x :: xs).drop 1024)
          with h | ⟨hh, he⟩ | ⟨hh, b, he⟩
        · exact ⟨_, _, _, by simp only [hopt, if_pos htls]; rfl, Or.inl h⟩
        · exact ⟨_, _, _, by simp only [hopt, if_pos htls]; rfl, Or.inr (Or.inl ⟨hh, he⟩)⟩
        · exact ⟨_, _, _, by simp only [hopt, if_pos htls]; rfl, Or.inr (Or.inr ⟨hh, addr, b, he⟩)⟩
      · rcases handleHTTPTrace_shape addr doms ((x :: xs).take 1024) ((x :: xs).drop 1024)
          with h | ⟨hh, he⟩ | ⟨hh, b, he⟩
        · exact ⟨_, _, _, by simp only [hopt, if_neg htls]; rfl, Or.inl h⟩
        · exact ⟨_, _, _, by simp only [hopt, if_neg htls]; rfl, Or.inr (Or.inl ⟨hh, he⟩)⟩
        · exact ⟨_, _, _, by simp only [hopt, if_neg htls]; rfl, Or.inr (Or.inr ⟨hh, addr, b, he⟩)⟩

/-- A server-name-list length that exceeds the bytes of its extension
makes the walk stop with the parse error. -/
theorem findSNI_snilist_oversize (extData : List Nat) (pos el : Nat)
    (sniList : List Nat) (listLen : Nat)
    (h4 : pos + 4 ≤ extData.length)
    (hel : el = be16 ((extData.take (pos+4)).drop (pos+2)))
    (hin : pos + 4 + el ≤ extData.length)
    (hty : be16 ((extData.take (pos+2)).drop pos) = 0)
    (hsl : sniList = (extData.take (pos+4+el)).drop (pos+4))
    (hl2 : ¬ sniList.length < 2)
    (hlen : listLen = be16 ((sniList.take 2).drop 0))
    (hov : sniList.length < listLen + 2) :
    findSNI extData pos = Except.error PErr.noSNI := by
  subst hel hsl hlen
  unfold findSNI
  obtain ⟨m, hm⟩ : ∃ m, extData.length + 1 - pos = m + 1 := ⟨extData.length - pos, by omega⟩
  rw [hm, findSNIFuel]
  simp only [if_pos h4,
    goSlice_ok extData pos (pos+2) (by omega) (by omega),
    goSlice_ok extData (pos+2) (pos+4) (by omega) (by omega)]
  rw [if_neg (show ¬ pos + 4 + be16 ((extData.take (pos+4)).drop (pos+2)) > extData.length
    by omega)]
  rw [if_pos hty]
  simp only [goSlice_ok extData (pos+4) (pos+4+be16 ((extData.take (pos+4)).drop (pos+2)))
    (by omega) (by omega)]
  rw [if_neg hl2]
  simp only [goSlice_ok ((extData.take (pos+4+be16 ((extData.take (pos+4)).drop (pos+2)))).drop
    (pos+4)) 0 2 (by omega) (by omega)]
  rw [if_pos (Or.inl hov)]

/-- A host-name length that exceeds the bytes of its server-name entry
makes the walk stop with the parse error. -/
theorem findSNI_name_oversize (extData : List Nat) (pos el : Nat)
    (sniList : List Nat) (listLen : Nat) (item : List Nat) (nameLen : Nat)
    (h4 : pos + 4 ≤ extData.length)
    (hel : el = be16 ((extData.take (pos+4)).drop (pos+2)))
    (hin : pos + 4 + el ≤ extData.length)
    (hty : be16 ((extData.take (pos+2)).drop pos) = 0)
    (hsl : sniList = (extData.take (pos+4+el)).drop (pos+4))
    (hl2 : ¬ sniList.length < 2)
    (hlen : listLen = be16 ((sniList.take 2).drop 0))
    (hll : ¬ (listLen + 2 > sniList.length ∨ listLen = 0))
    (hit : item = (sniList.take sniList.length).drop 2)
    (h3 : ¬ (item.length < 3 ∨ item.getD 0 0 ≠ 0))
    (hnl : nameLen = be16 ((item.take 3).drop 1))
    (hov : item.length < nameLen + 3) :
    findSNI extData pos = Except.error PErr.noSNI := by
  subst hel hsl hlen hit hnl
  unfold findSNI
  obtain ⟨m, hm⟩ : ∃ m, extData.length + 1 - pos = m + 1 := ⟨extData.length - pos, by omega⟩
  rw [hm, findSNIFuel]
  simp only [if_pos h4,
    goSlice_ok extData pos (pos+2) (by omega) (by omega),
    goSlice_ok extData (pos+2) (pos+4) (by omega) (by omega)]
  rw [if_neg (show ¬ pos + 4 + be16 ((extData.take (pos+4)).drop (pos+2)) > extData.length
    by omega)]
  rw [if_pos hty]
  simp only [goSlice_ok extData (pos+4) (pos+4+be16 ((extData.take (pos+4)).drop (pos+2)))
    (by omega) (by omega)]
  rw [if_neg hl2]
  set sniList := (extData.take (pos+4+be16 ((extData.take (pos+4)).drop (pos+2)))).drop (pos+4)
    with hsld
  simp only [goSlice_ok sniList 0 2 (by omega) (by omega)]
  rw [if_neg hll]
  have hll1 : ¬ (be16 ((sniList.take 2).drop 0) + 2 > sniList.length) :=
    fun h => hll (Or.inl h)
  simp only [goSlice_ok sniList 2 sniList.length (by omega) (by omega)]
  rw [if_neg h3]
  have h3a : ¬ ((sniList.take sniList.length).drop 2).length < 3 := fun h => h3 (Or.inl h)
  simp only [goSlice_ok ((sniList.take sniList.length).drop 2) 1 3 (by omega) (by omega)]
  rw [if_pos hov]

/-!
Claim theorems.
-/

/-- Claim C1: for every accepted connection, nothing is dialed or
written towards a backend before the source-IP check and the domain
policy check have both been evaluated and passed (they appear, passed,
strictly before the first dial/write in the event trace), and a
connection rejected by either check produces a trace with no backend
dial or write at all. -/
theorem c1_checks_before_backend (cfg : Config) (ip : List Nat) (stream : List Nat) :
    (∀ e ∈ connectionTrace cfg ip stream, isDialOrWrite e = true →
      Event.ipCheck true ∈
          (connectionTrace cfg ip stream).takeWhile (fun ev => !isDialOrWrite ev) ∧
        ∃ h, Event.domainCheck h true ∈
          (connectionTrace cfg ip stream).takeWhile (fun ev => !isDialOrWrite ev)) ∧
    ((Event.ipCheck false ∈ connectionTrace cfg ip stream ∨
        ∃ h, Event.domainCheck h false ∈ connectionTrace cfg ip stream) →
      ∀ e ∈ connectionTrace cfg ip stream, isDialOrWrite e = false) := by
  unfold connectionTrace
  by_cases hip : ipAllowed cfg.allowedNets ip = true
  · rw [if_pos hip]
    rcases handleConnectionTrace_shape cfg.destAddrs cfg.allowedDomains stream
      with hs | ⟨n, tls, rest, hs, hrest⟩
    · rw [hs]
      constructor
      · intro e he hd
        simp only [List.mem_cons, List.not_mem_nil, or_false] at he
        rcases he with rfl | rfl <;> simp [isDialOrWrite] at hd
      · intro _ e he
        simp only [List.mem_cons, List.not_mem_nil, or_false] at he
        rcases he with rfl | rfl <;> rfl
    · rw [hs]
      rcases hrest with rfl | ⟨h, rfl⟩ | ⟨h, a, b, rfl⟩
      · constructor
        · intro e he hd
          simp only [List.mem_cons, List.not_mem_nil, or_false] at he
          rcases he with rfl | rfl | rfl <;> simp [isDialOrWrite] at hd
        · intro _ e he
          simp only [List.mem_cons, List.not_mem_nil, or_false] at he
          rcases he with rfl | rfl | rfl <;> rfl
      · constructor
        · intro e he hd
          simp only [List.mem_cons, List.not_mem_nil, or_false] at he
          rcases he with rfl | rfl | rfl | rfl <;> simp [isDialOrWrite] at hd
        · intro _ e he
          simp only [List.mem_cons, List.not_mem_nil, or_false] at he
          rcases he with rfl | rfl | rfl | rfl <;> rfl
      · constructor
        · intro e he hd
          refine ⟨?_, h, ?_⟩ <;> simp [List.takeWhile_cons, isDialOrWrite]
        · intro hrej
          exfalso
          rcases hrej with hmem | ⟨h', hmem⟩ <;> simp at hmem
  · rw [if_neg hip]
    constructor
    · intro e he hd
      simp only [List.mem_cons, List.not_mem_nil, or_false] at he
      subst he
      simp [isDialOrWrite] at hd
    · intro _ e he
      simp only [List.mem_cons, List.not_mem_nil, or_false] at he
      subst he
      rfl

/-- Witness for C1: a fully allowed TLS connection whose trace does
dial, with both checks present and passed in the prefix before the
first dial/write. -/
theorem c1_witness :
    isDialOrWrite (Event.dial "b1") = true ∧
    Event.dial "b1" ∈ connectionTrace cfgWildcard [1,2,3,4] helloSample ∧
    Event.ipCheck true ∈
      (connectionTrace cfgWildcard [1,2,3,4] helloSample).takeWhile
        (fun ev => !isDialOrWrite ev) :=
  ⟨by decide, by decide,
    ((c1_checks_before_backend cfgWildcard [1,2,3,4] helloSample).1
      (Event.dial "b1") (by decide) (by decide)).1⟩

/-- Claim C2 counterexample: a well-formed ClientHello with no SNI
extension under the wildcard domain policy is not dialed and relayed
with an empty routing key, as the claim states; `readClientHello`
returns an error and the connection's trace ends right after protocol
classification, with no domain check and no dial. -/
theorem c2_counterexample :
    readClientHello helloNoSni [] = Except.error PErr.noSNI ∧
    cfgWildcard.allowedDomains = [['*']] ∧
    connectionTrace cfgWildcard [1,2,3,4] helloNoSni =
      [Event.ipCheck true, Event.readInitialBytes 52, Event.classified true] :=
  ⟨by decide, rfl, by decide⟩

/-- Claim C2 as amended: a missing SNI is fatal, not a non-fatal empty
routing key: whenever `readClientHello` returns an error (`noSNI`
included), `handleHTTPS` drops the connection with no domain check, no
backend dial and no forwarding, under every domain policy including
the wildcard one. -/
theorem c2_amended_no_sni_fatal (chunk stream : List Nat) (addr : String)
    (doms : List (List Char)) (e : PErr)
    (h : readClientHello chunk stream = Except.error e) :
    handleHTTPSTrace addr doms chunk stream = [] := by
  unfold handleHTTPSTrace
  simp only [h]

/-- Witness for the amended C2 at the concrete SNI-less ClientHello
under the wildcard policy. -/
theorem c2_witness :
    readClientHello helloNoSni [] = Except.error PErr.noSNI ∧
    handleHTTPSTrace "b1" [['*']] helloNoSni [] = [] :=
  ⟨by decide, c2_amended_no_sni_fatal helloNoSni [] "b1" [['*']] PErr.noSNI (by decide)⟩

/-- Claim C3 counterexample: with two backends and domain policy
exactly `["*"]`, the chosen backend is not a uniform-random choice
independent of the protocol: the code deterministically dials backend
index 1 for a TLS connection and index 0 for a plaintext one, and a
TLS connection never reaches backend 0. -/
theorem c3_counterexample :
    Event.dial "b1" ∈ connectionTrace cfgWildcard [1,2,3,4] helloSample ∧
    Event.dial "b0" ∈ connectionTrace cfgWildcard [1,2,3,4] httpSample ∧
    Event.dial "b0" ∉ connectionTrace cfgWildcard [1,2,3,4] helloSample ∧
    ("b0" : String) ≠ "b1" :=
  ⟨by decide, by decide, by decide, by decide⟩

/-- Claim C3 as amended: with two or more backends and domain policy
exactly `["*"]`, selection is deterministic and identical to the
non-wildcard rule — index 0 for plaintext and index 1 for TLS; the
domain policy never influences the choice and no randomness exists. -/
theorem c3_amended_wildcard_selection (destAddrs : List String) (doms : List (List Char))
    (h2 : 2 ≤ destAddrs.length) (_hw : doms = [['*']]) :
    selectTarget false destAddrs = destAddrs.get? 0 ∧
    selectTarget true destAddrs = destAddrs.get? 1 := by
  constructor
  · simp [selectTarget, show 0 < destAddrs.length by omega]
  · simp [selectTarget, h2]

/-- Witness for the amended C3 at two concrete backends under the
wildcard policy. -/
theorem c3_witness :
    selectTarget false ["b0", "b1"] = ["b0", "b1"].get? 0 ∧
    selectTarget true ["b0", "b1"] = ["b0", "b1"].get? 1 :=
  c3_amended_wildcard_selection ["b0", "b1"] [['*']] (by decide) rfl

/-- Claim C4: with exactly one configured backend that backend is
chosen for both plaintext and TLS; with two or more backends and a
non-wildcard domain policy, plaintext goes to index 0 and TLS to
index 1. -/
theorem c4_target_selection :
    (∀ (tls : Bool) (a : String), selectTarget tls [a] = some a) ∧
    ∀ (destAddrs : List String) (doms : List (List Char)),
      2 ≤ destAddrs.length → doms ≠ [['*']] →
      selectTarget false destAddrs = destAddrs.get? 0 ∧
      selectTarget true destAddrs = destAddrs.get? 1 := by
  constructor
  · intro tls a
    cases tls <;> simp [selectTarget]
  · intro destAddrs doms h2 hw
    constructor
    · simp [selectTarget, show 0 < destAddrs.length by omega]
    · simp [selectTarget, h2]

/-- Witness for C4 at one and two concrete backends with the policy
`["example.com"]`-style non-wildcard list. -/
theorem c4_witness :
    selectTarget true ["b"] = some "b" ∧
    (selectTarget false ["b0", "b1"] = ["b0", "b1"].get? 0 ∧
      selectTarget true ["b0", "b1"] = ["b0", "b1"].get? 1) :=
  ⟨c4_target_selection.1 true "b",
    c4_target_selection.2 ["b0", "b1"] ["example.com".toList] (by decide) (by decide)⟩

/-- Claim C5: the ClientHello parser bounds-checks every
length-prefixed field before slicing: the extensions walk only ever
produces an extracted name or the `noSNI` parse error (never the
`panic` that models an out-of-bounds Go slice), the whole
`readClientHello` pipeline only produces a value or one of its checked
errors, and an extension length that exceeds the remaining buffered
bytes yields the parse error, and so do an oversize server-name-list
length and an oversize host-name length. -/
theorem c5_parser_bounds_checked :
    (∀ (extData : List Nat) (pos : Nat),
      (∃ s, findSNI extData pos = Except.ok s) ∨
        findSNI extData pos = Except.error PErr.noSNI) ∧
    (∀ (chunk stream : List Nat),
      (∃ v, readClientHello chunk stream = Except.ok v) ∨
        ∃ e, readClientHello chunk stream = Except.error e ∧
          e ∈ [PErr.eof, PErr.recordLen0, PErr.notClientHello, PErr.noSNI]) ∧
    (∀ (extData : List Nat) (pos : Nat),
      pos + 4 ≤ extData.length →
      extData.length < pos + 4 + be16 ((extData.take (pos + 4)).drop (pos + 2)) →
      findSNI extData pos = Except.error PErr.noSNI) ∧
    (∀ (extData : List Nat) (pos el : Nat) (sniList : List Nat) (listLen : Nat),
      pos + 4 ≤ extData.length →
      el = be16 ((extData.take (pos+4)).drop (pos+2)) →
      pos + 4 + el ≤ extData.length →
      be16 ((extData.take (pos+2)).drop pos) = 0 →
      sniList = (extData.take (pos+4+el)).drop (pos+4) →
      ¬ sniList.length < 2 →
      listLen = be16 ((sniList.take 2).drop 0) →
      sniList.length < listLen + 2 →
      findSNI extData pos = Except.error PErr.noSNI) ∧
    (∀ (extData : List Nat) (pos el : Nat) (sniList : List Nat) (listLen : Nat)
        (item : List Nat) (nameLen : Nat),
      pos + 4 ≤ extData.length →
      el = be16 ((extData.take (pos+4)).drop (pos+2)) →
      pos + 4 + el ≤ extData.length →
      be16 ((extData.take (pos+2)).drop pos) = 0 →
      sniList = (extData.take (pos+4+el)).drop (pos+4) →
      ¬ sniList.length < 2 →
      listLen = be16 ((sniList.take 2).drop 0) →
      ¬ (listLen + 2 > sniList.length ∨ listLen = 0) →
      item = (sniList.take sniList.length).drop 2 →
      ¬ (item.length < 3 ∨ item.getD 0 0 ≠ 0) →
      nameLen = be16 ((item.take 3).drop 1) →
      item.length < nameLen + 3 →
      findSNI extData pos = Except.error PErr.noSNI) := by
  refine ⟨findSNI_shape, readClientHello_shape, ?_,
    findSNI_snilist_oversize, findSNI_name_oversize⟩
  intro extData pos h4 hov
  unfold findSNI
  obtain ⟨m, hm⟩ : ∃ m, extData.length + 1 - pos = m + 1 := ⟨extData.length - pos, by omega⟩
  rw [hm, findSNIFuel]
  simp only [if_pos h4,
    goSlice_ok extData pos (pos+2) (by omega) (by omega),
    goSlice_ok extData (pos+2) (pos+4) (by omega) (by omega)]
  rw [if_pos hov]

/-- Witness for C5: an extensions block whose single extension declares
50 bytes while none remain parses to the `noSNI` error. -/
theorem c5_witness :
    (0 + 4 ≤ ([0,0,0,50] : List Nat).length) ∧
    (([0,0,0,50] : List Nat).length <
      0 + 4 + be16 ((([0,0,0,50] : List Nat).take (0 + 4)).drop (0 + 2))) ∧
    findSNI [0,0,0,50] 0 = Except.error PErr.noSNI :=
  ⟨by decide, by decide,
    c5_parser_bounds_checked.2.2.1 [0,0,0,50] 0 (by decide) (by decide)⟩

/-- Claim C7: a well-formed ClientHello delivered split — a `k`-byte
initial chunk with the remainder (and anything after it) available
from the connection — parses to the same extracted hostname and the
same consumed-bytes output as when the whole record arrives in the
initial chunk (the entire parse result is equal). -/
theorem c7_split_read_equivalence (full extra : List Nat) (k : Nat)
    (hwf : full.length = 5 + recordLenOf full) :
    readClientHello (full.take k) (full.drop k ++ extra) = readClientHello full extra :=
  readClientHello_split_eq full extra k hwf

/-- Witness for C7: the synthetic `test.example.com` ClientHello split
after 10 bytes, with trailing extra bytes on the stream. -/
theorem c7_witness :
    helloSample.length = 5 + recordLenOf helloSample ∧
    readClientHello (helloSample.take 10) (helloSample.drop 10 ++ [7, 7]) =
      readClientHello helloSample [7, 7] :=
  ⟨by decide, c7_split_read_equivalence helloSample [7, 7] 10 (by decide)⟩

/-- Claim C8: the IP gate admits a connection iff the remote address
lies in at least one configured range (ranges of both families may be
mixed in one list), and a denied connection's trace is the failed IP
check alone — closed before any payload byte is read. -/
theorem c8_ip_gate (nets : List IPNet) (ip : List Nat) (cfg : Config) (stream : List Nat) :
    (ipAllowed nets ip = true ↔ ∃ n ∈ nets, ipnetContains n ip = true) ∧
    (ipAllowed cfg.allowedNets ip = false →
      connectionTrace cfg ip stream = [Event.ipCheck false]) := by
  constructor
  · simp [ipAllowed, List.any_eq_true]
  · intro h
    unfold connectionTrace
    rw [if_neg (by simp [h])]

/-- Witness for C8: 10.0.0.1 is outside 192.168.1.0/24 and its
connection is closed unread; 192.168.1.42 and ::1 are admitted by a
mixed IPv4/IPv6 policy. -/
theorem c8_witness :
    ipAllowed cfgDenied.allowedNets [10,0,0,1] = false ∧
    connectionTrace cfgDenied [10,0,0,1] httpSample = [Event.ipCheck false] ∧
    ipAllowed [cidr24, v6all] [192,168,1,42] = true ∧
    ipAllowed [cidr24, v6all] (List.replicate 15 0 ++ [1]) = true :=
  ⟨by decide,
    (c8_ip_gate [cidr24] [10,0,0,1] cfgDenied httpSample).2 (by decide),
    by decide, by decide⟩

/-- Claim C9: an accepted connection whose initial read yields no data
(an empty stream: a TCP read then returns an error) is dropped with no
further processing — its trace is the passed IP check and the failed
read, with no classification, no parsing, no domain check and no
backend dial. -/
theorem c9_failed_initial_read (cfg : Config) (ip : List Nat)
    (hip : ipAllowed cfg.allowedNets ip = true) :
    connectionTrace cfg ip [] = [Event.ipCheck true, Event.readFail] := by
  unfold connectionTrace handleConnectionTrace
  rw [if_pos hip]

/-- Witness for C9 at an allow-all configuration. -/
theorem c9_witness :
    ipAllowed cfgWildcard.allowedNets [1,2,3,4] = true ∧
    connectionTrace cfgWildcard [1,2,3,4] [] = [Event.ipCheck true, Event.readFail] :=
  ⟨by decide, c9_failed_initial_read cfgWildcard [1,2,3,4] (by decide)⟩

/-- Claim C10: domain pattern matching is total — an invalid
translated regular expression simply makes `matchDomain` answer
`false` (deny) — and the translation escapes only `.` and rewrites
`*`, so another regex metacharacter such as `+` keeps its regex
meaning: pattern `a+` matches host `aaa`, which its literal glob
reading does not. -/
theorem c10_regex_semantics :
    (∀ (host p : List Char), parseRegex (translateGlob p) = none → matchDomain host p = false) ∧
    matchDomain ['a','a','a'] ['a','+'] = true ∧
    globMatch ['a','+'] ['a','a','a'] = false := by
  refine ⟨fun host p h => ?_, by decide, by decide⟩
  unfold matchDomain
  rw [h]

/-- Witness for C10: the pattern `(` translates to an invalid regular
expression and is treated as non-matching. -/
theorem c10_witness :
    parseRegex (translateGlob ['(']) = none ∧ matchDomain ['x'] ['('] = false :=
  ⟨by decide, c10_regex_semantics.1 ['x'] ['('] (by decide)⟩

end SecureTCPRelay
